import Mathlib

/-!
# Verification of the yew-bulma form coordination protocol

A shallow embedding of the field/form registration-and-validation
coordination core of the `yew-bulma` crate
(`src/components/form/{form_component,link,field_props,input_field,
checkbox_field,select_field,multi_value_field}.rs`), together with
theorems settling the specification's claims about it.

Modelling conventions:
* `form_validation::ValidationErrors<Key>` is modelled as a list of
  `(key, message)` pairs; `ValidationErrors::extend` is list append and
  `ValidationErrors::is_empty` is list emptiness.
* `std::collections::HashMap` (the form's `validation_errors` map and
  the registry's `field_links` map) is modelled as an association list
  with key-replacing insertion (`insertEntry`), mirroring
  `HashMap::insert`'s overwrite semantics.
* A yew component's `update` is modelled as a pure step function from
  (properties, state, message) to (new state, emitted side effects,
  `ShouldRender`).  Side effects (callback emissions, messages sent
  through `ComponentLink` or `FormFieldLink`) are recorded in an
  explicit effect list, in the order the source emits them.
* `Rc` pointer identity (used by `FormFieldLink`'s `PartialEq`) is
  modelled by a numeric identity tag on the registry model.
* A panic (`unwrap`/`expect` on a missing registry entry) is modelled
  as the `none` outcome of a fallible delivery function.
-/

/-- Models `form_validation::ValidationErrors<Key>`: a collection of
validation error messages, each attached to a field key.
`ValidationErrors::default()` is `[]`, `extend` is `++`, `is_empty` is
`List.isEmpty`. -/
abbrev ValidationErrors (Key : Type) := List (Key × String)

/-- Models `HashMap::insert`: replace the entry for `k` if present,
otherwise add a new entry. -/
def insertEntry {Key V : Type} [DecidableEq Key] :
    List (Key × V) → Key → V → List (Key × V)
  | [], k, v => [(k, v)]
  | p :: rest, k, v =>
      if p.1 = k then (k, v) :: rest else p :: insertEntry rest k v

/-- Models `HashMap::get`. -/
def lookupEntry {Key V : Type} [DecidableEq Key] :
    List (Key × V) → Key → Option V
  | [], _ => none
  | p :: rest, k => if p.1 = k then some p.2 else lookupEntry rest k

/-- Models `HashMap::contains_key`. -/
def containsKey {Key V : Type} [DecidableEq Key] :
    List (Key × V) → Key → Bool
  | [], _ => false
  | p :: rest, k => (p.1 = k) || containsKey rest k

/-- The state owned by the `Form<Key>` component
(`form_component.rs`): the per-field aggregate error map
`validation_errors : HashMap<Key, ValidationErrors<Key>>` and the
`validating` flag. -/
structure FormState (Key : Type) where
  validation_errors : List (Key × ValidationErrors Key)
  validating : Bool
deriving DecidableEq

/-- The form state produced by `Form::create`:
`validation_errors: HashMap::new(), validating: false`. -/
def Form.createState (Key : Type) : FormState Key :=
  { validation_errors := [], validating := false }

/-- Models the method `Form::validation_errors()`: folds every stored
per-field error set into one aggregate `ValidationErrors` via
`extend`. -/
def FormState.aggregate_errors {Key : Type} (s : FormState Key) :
    ValidationErrors Key :=
  (s.validation_errors.map Prod.snd).flatten

/-- Models `Form::all_validated()`: every key in the registry's
*current* `registered_fields()` (the `regs` argument, read live at the
time of the check) has an entry in `validation_errors`. -/
def Form.all_validated {Key : Type} [DecidableEq Key]
    (regs : List Key) (s : FormState Key) : Bool :=
  regs.all (fun k => containsKey s.validation_errors k)

/-- Models `FormMsg<Key>` from `form_component.rs`. -/
inductive FormMsg (Key : Type) where
  | FieldValueUpdate (key : Key)
  | FieldValidationUpdate (key : Key) (errors : ValidationErrors Key)
  | ValidateThenSubmit
  | Submit
  | Ignore
deriving DecidableEq

/-- Models `Result<(), ValidationErrors<Key>>`, the payload of the
form's `onsubmit` callback: `ok` is `Ok(())` (success, no payload),
`err` carries the aggregate error map. -/
inductive SubmitResult (Key : Type) where
  | ok
  | err (errors : ValidationErrors Key)
deriving DecidableEq

/-- The side effects `Form::update` can emit, in source order:
callback emissions and messages sent through the registry or the
component's own link. -/
inductive FormEffect (Key : Type) where
  /-- `props.onsubmit_validate_start.emit(())` -/
  | EmitSubmitValidateStart
  /-- `props.onsubmit.emit(result)` -/
  | EmitSubmit (result : SubmitResult Key)
  /-- `props.onvalidateupdate.emit(aggregate)` -/
  | EmitValidateUpdate (errors : ValidationErrors Key)
  /-- `props.form_link.send_all_fields_message(FieldMsg::Validate)` -/
  | SendAllFieldsValidate
  /-- `self.link.send_message(msg)` (a message the form posts to its
  own queue) -/
  | SendSelf (msg : FormMsg Key)
deriving DecidableEq

/-- Models `Form::update` (`form_component.rs`, lines 105-144).
`regs` is the registry's current `registered_fields()` snapshot, read
by `all_validated` at the moment the message is processed.  Returns
(new state, emitted effects in source order, `ShouldRender`). -/
def Form.update {Key : Type} [DecidableEq Key]
    (regs : List Key) (s : FormState Key) (msg : FormMsg Key) :
    FormState Key × List (FormEffect Key) × Bool :=
  match msg with
  | .FieldValueUpdate _ => (s, [], true)
  | .ValidateThenSubmit =>
      ({ validation_errors := [], validating := true },
        [.EmitSubmitValidateStart, .SendAllFieldsValidate], false)
  | .Submit =>
      let ve := s.aggregate_errors
      let result := if ve.isEmpty then SubmitResult.ok else SubmitResult.err ve
      (s, [.EmitSubmit result], true)
  | .FieldValidationUpdate key errors =>
      let s1 : FormState Key :=
        { s with validation_errors := insertEntry s.validation_errors key errors }
      if s1.validating && Form.all_validated regs s1 then
        ({ s1 with validating := false },
          [.EmitValidateUpdate s1.aggregate_errors, .SendSelf .Submit], true)
      else
        (s1, [.EmitValidateUpdate s1.aggregate_errors], true)
  | .Ignore => (s, [], false)

/-- C1: processing `FormMsg::Submit` emits exactly one `onsubmit`
notification, whose result is `Ok(())` when the union of all stored
error sets is empty and otherwise `Err` carrying the full aggregate
error map; the decision depends only on emptiness of the union, so
entries whose error sets are empty never cause failure. -/
theorem submit_emits_exactly_one_result {Key : Type} [DecidableEq Key]
    (regs : List Key) (s : FormState Key) :
    Form.update regs s FormMsg.Submit =
      (s,
        [FormEffect.EmitSubmit
          (if s.aggregate_errors.isEmpty then SubmitResult.ok
            else SubmitResult.err s.aggregate_errors)],
        true)
    ∧ (s.aggregate_errors.isEmpty = true ↔ ∀ p ∈ s.validation_errors, p.2 = []) := by
  refine ⟨rfl, ?_⟩
  simp only [FormState.aggregate_errors, List.isEmpty_iff, List.flatten_eq_nil_iff,
    List.mem_map, forall_exists_index, and_imp, Prod.forall]
  constructor
  · intro h a b hmem
    exact h b a b hmem rfl
  · intro h l a b hmem heq
    exact heq ▸ h a b hmem

/-- Helper: how the `FieldValidationUpdate` arm transforms the
`validating` flag. -/
theorem update_validating_aux {Key : Type} [DecidableEq Key]
    (regs : List Key) (s : FormState Key) (key : Key)
    (errors : ValidationErrors Key) :
    (Form.update regs s (FormMsg.FieldValidationUpdate key errors)).1.validating
      = (s.validating &&
          !(Form.all_validated regs
              { s with validation_errors := insertEntry s.validation_errors key errors })) := by
  by_cases h : (s.validating && Form.all_validated regs
      { s with validation_errors := insertEntry s.validation_errors key errors }) = true
  · simp [Form.update, h]
    rw [Bool.and_eq_true] at h
    exact fun _ => h.2
  · simp [Form.update, h]
    rcases Bool.and_eq_false_iff.mp (Bool.not_eq_true _ ▸ h) with h1 | h1
    · simp [h1]
    · simp [h1]

/-- C3: processing `FormMsg::FieldValidationUpdate(key, errors)`
replaces (never merges) the stored entry for `key` with `errors`,
emits exactly one `onvalidateupdate` notification carrying the (post
insertion) aggregate error map as its first effect, sends `Submit` to
the form's own queue if and only if `validating` holds and every key
in the live `registered_fields()` snapshot now has an entry, and the
`validating` flag afterwards holds exactly when it held before and
some live registered key is still missing an entry. -/
theorem field_validation_update_spec {Key : Type} [DecidableEq Key]
    (regs : List Key) (s : FormState Key) (key : Key)
    (errors : ValidationErrors Key) :
    (Form.update regs s (FormMsg.FieldValidationUpdate key errors)).1.validation_errors
        = insertEntry s.validation_errors key errors
    ∧ lookupEntry
        (Form.update regs s (FormMsg.FieldValidationUpdate key errors)).1.validation_errors
        key = some errors
    ∧ (Form.update regs s (FormMsg.FieldValidationUpdate key errors)).2.1
        = FormEffect.EmitValidateUpdate
            (FormState.aggregate_errors
              { s with validation_errors := insertEntry s.validation_errors key errors })
          :: (if s.validating &&
                Form.all_validated regs
                  { s with validation_errors := insertEntry s.validation_errors key errors }
              then [FormEffect.SendSelf FormMsg.Submit] else [])
    ∧ (Form.update regs s (FormMsg.FieldValidationUpdate key errors)).1.validating
        = (s.validating &&
            !(Form.all_validated regs
                { s with validation_errors := insertEntry s.validation_errors key errors })) := by
  have hlook : ∀ (m : List (Key × ValidationErrors Key)),
      lookupEntry (insertEntry m key errors) key = some errors := by
    intro m
    induction m with
    | nil => simp [insertEntry, lookupEntry]
    | cons p rest ih =>
        by_cases h : p.1 = key
        · simp [insertEntry, lookupEntry, h]
        · simp [insertEntry, lookupEntry, h, ih]
  have hval : ∀ b : Bool,
      Form.all_validated regs
        { validation_errors := insertEntry s.validation_errors key errors,
          validating := b }
      = Form.all_validated regs
        { s with validation_errors := insertEntry s.validation_errors key errors } := by
    intro b; rfl
  refine ⟨?_, ?_, ?_, update_validating_aux regs s key errors⟩ <;>
    by_cases h : (s.validating && Form.all_validated regs
        { s with validation_errors := insertEntry s.validation_errors key errors }) = true <;>
      simp [Form.update, h, hlook]

/-- C4: the `validating` flag is `false` in the state `Form::create`
builds; `FormMsg::ValidateThenSubmit` is the only transition that sets
it (unconditionally, when broadcasting validation);
`FormMsg::FieldValidationUpdate` keeps it exactly until every
currently registered key has an entry in `validation_errors`, at which
point it clears it; every other message leaves it unchanged. -/
theorem validating_flag_invariant {Key : Type} [DecidableEq Key]
    (regs : List Key) (s : FormState Key) (msg : FormMsg Key) :
    (Form.createState Key).validating = false
    ∧ (Form.update regs s msg).1.validating =
        match msg with
        | .ValidateThenSubmit => true
        | .FieldValidationUpdate key errors =>
            s.validating &&
              !(Form.all_validated regs
                  { s with validation_errors := insertEntry s.validation_errors key errors })
        | _ => s.validating := by
  refine ⟨rfl, ?_⟩
  cases msg with
  | FieldValidationUpdate key errors =>
      exact update_validating_aux regs s key errors
  | FieldValueUpdate key => rfl
  | ValidateThenSubmit => rfl
  | Submit => rfl
  | Ignore => rfl

/-- Termination measure of the event-queue driver: processing
`FieldValidationUpdate` may post at most one `Submit` self-message;
no other message posts anything. -/
def FormMsg.weight {Key : Type} : FormMsg Key → Nat
  | .FieldValidationUpdate _ _ => 2
  | _ => 1

/-- Total weight of a message queue. -/
def queueWeight {Key : Type} (ms : List (FormMsg Key)) : Nat :=
  (ms.map FormMsg.weight).sum

/-- The messages that a batch of effects posts back to the form's own
queue (the `self.link.send_message` calls). -/
def selfMessages {Key : Type} (effs : List (FormEffect Key)) :
    List (FormMsg Key) :=
  effs.filterMap fun e =>
    match e with
    | .SendSelf m => some m
    | _ => none

theorem selfMessages_weight_lt {Key : Type} [DecidableEq Key]
    (regs : List Key) (s : FormState Key) (m : FormMsg Key) :
    queueWeight (selfMessages (Form.update regs s m).2.1) < m.weight := by
  cases m with
  | FieldValidationUpdate key errors =>
      by_cases h : (s.validating && Form.all_validated regs
          { s with validation_errors := insertEntry s.validation_errors key errors }) = true <;>
        simp [Form.update, h, selfMessages, queueWeight, FormMsg.weight]
  | FieldValueUpdate key =>
      simp [Form.update, selfMessages, queueWeight, FormMsg.weight]
  | ValidateThenSubmit =>
      simp [Form.update, selfMessages, queueWeight, FormMsg.weight]
  | Submit =>
      simp [Form.update, selfMessages, queueWeight, FormMsg.weight]
  | Ignore =>
      simp [Form.update, selfMessages, queueWeight, FormMsg.weight]

/-- The single-threaded yew event loop, restricted to the form
component: messages are processed in order and messages the form sends
to itself (`FormEffect.SendSelf`) are appended to the back of the
queue, as `ComponentLink::send_message` does.  Returns the final form
state together with all emitted effects in order. -/
def processQueue {Key : Type} [DecidableEq Key] (regs : List Key) :
    FormState Key → List (FormMsg Key) → FormState Key × List (FormEffect Key)
  | s, [] => (s, [])
  | s, m :: rest =>
      let r := Form.update regs s m
      let next := processQueue regs r.1 (rest ++ selfMessages r.2.1)
      (next.1, r.2.1 ++ next.2)
termination_by _ ms => queueWeight ms
decreasing_by
  simp only [queueWeight, List.map_append, List.sum_append, List.map_cons,
    List.sum_cons]
  have hlt := selfMessages_weight_lt regs s m
  simp only [queueWeight] at hlt
  omega

/-- The aggregate error map holding an (empty) error set for each key
in `keys`: the map reached after every field of a form whose
validators all succeed has reported. -/
def emptyEntries {Key : Type} (keys : List Key) :
    List (Key × ValidationErrors Key) :=
  keys.map (fun k => (k, []))

theorem containsKey_emptyEntries {Key : Type} [DecidableEq Key]
    (l : List Key) (k : Key) :
    containsKey (emptyEntries l) k = decide (k ∈ l) := by
  induction l with
  | nil => simp [emptyEntries, containsKey]
  | cons x xs ih =>
      simp [emptyEntries, containsKey, List.mem_cons, eq_comm] at ih ⊢
      simp [ih]

theorem aggregate_emptyEntries {Key : Type} (l : List Key) (b : Bool) :
    FormState.aggregate_errors
      { validation_errors := emptyEntries l, validating := b } = [] := by
  simp [FormState.aggregate_errors, emptyEntries, List.flatten_eq_nil_iff]

theorem insertEntry_append {Key V : Type} [DecidableEq Key]
    (m : List (Key × V)) (k : Key) (v : V)
    (h : containsKey m k = false) : insertEntry m k v = m ++ [(k, v)] := by
  induction m with
  | nil => rfl
  | cons p rest ih =>
      simp [containsKey] at h
      simp [insertEntry, h.1, ih h.2]

theorem all_validated_of_subset {Key : Type} [DecidableEq Key]
    {regs l : List Key} {b : Bool} (h : ∀ k ∈ regs, k ∈ l) :
    Form.all_validated regs
      { validation_errors := emptyEntries l, validating := b } = true := by
  simp [Form.all_validated, List.all_eq_true, containsKey_emptyEntries]
  exact h

theorem all_validated_false_of_missing {Key : Type} [DecidableEq Key]
    {regs l : List Key} {b : Bool} {k : Key} (hk : k ∈ regs) (hnl : k ∉ l) :
    Form.all_validated regs
      { validation_errors := emptyEntries l, validating := b } = false := by
  rw [Form.all_validated, List.all_eq_false]
  exact ⟨k, hk, by simp [containsKey_emptyEntries, hnl]⟩

theorem process_updates {Key : Type} [DecidableEq Key]
    (todo : List Key) :
    ∀ done : List Key, (done ++ todo).Nodup → todo ≠ [] →
    processQueue (done ++ todo)
        { validation_errors := emptyEntries done, validating := true }
        (todo.map (fun k => FormMsg.FieldValidationUpdate k [])) =
      ({ validation_errors := emptyEntries (done ++ todo), validating := false },
        List.replicate todo.length (FormEffect.EmitValidateUpdate []) ++
          [FormEffect.SendSelf FormMsg.Submit,
            FormEffect.EmitSubmit SubmitResult.ok]) := by
  induction todo with
  | nil => intro done hnd hne; cases hne rfl
  | cons t rest ih =>
      intro done hnd hne
      have hdisj : List.Disjoint done (t :: rest) :=
        List.disjoint_of_nodup_append hnd
      have htd : t ∉ done := fun h => hdisj h (List.mem_cons_self t rest)
      have hck : containsKey (emptyEntries done) t = false := by
        simp [containsKey_emptyEntries, htd]
      have hins : insertEntry (emptyEntries done) t ([] : ValidationErrors Key)
          = emptyEntries (done ++ [t]) := by
        rw [insertEntry_append _ _ _ hck]
        simp [emptyEntries]
      cases rest with
      | nil =>
          have hall : Form.all_validated (done ++ [t])
              { validation_errors := emptyEntries (done ++ [t]),
                validating := true } = true :=
            all_validated_of_subset (fun k hk => hk)
          simp [processQueue, Form.update, hins, hall, selfMessages,
            aggregate_emptyEntries, List.replicate]
      | cons r rest2 =>
          have hrt : r ∉ done ++ [t] := by
            have hr1 : r ∉ done :=
              fun h => hdisj h (List.mem_cons_of_mem t (List.mem_cons_self r rest2))
            have hnd2 : (t :: r :: rest2).Nodup := hnd.of_append_right
            have hr2 : r ≠ t := by
              intro h
              exact (List.nodup_cons.mp hnd2).1
                (h ▸ List.mem_cons_self r rest2)
            simp [hr1, hr2]
          have hrmem : r ∈ done ++ t :: r :: rest2 := by
            simp
          have hall : Form.all_validated (done ++ t :: r :: rest2)
              { validation_errors := emptyEntries (done ++ [t]),
                validating := true } = false :=
            all_validated_false_of_missing hrmem hrt
          have hassoc : (done ++ [t]) ++ (r :: rest2) = done ++ t :: r :: rest2 := by
            simp
          have hnd3 : ((done ++ [t]) ++ (r :: rest2)).Nodup := by
            rw [hassoc]; exact hnd
          have ihr := ih (done ++ [t]) hnd3 (by simp)
          rw [hassoc] at ihr
          simp only [List.map_cons, processQueue, Form.update, hins]
          rw [List.map_cons] at ihr
          simp only [hall, Bool.and_false, Bool.false_and, if_neg, Bool.false_eq_true,
            not_false_iff, ite_false]
          simp [selfMessages, aggregate_emptyEntries, ihr, hassoc,
            List.replicate_succ]

/-- C2 (amended: the registry holds at least one field): starting from
any form state, a `ValidateThenSubmit` followed by the
`FieldValidationUpdate(k, ∅)` responses that the broadcast `Validate`
elicits from each of the `N ≥ 1` registered fields (their validators
always return the empty error set) drives the event loop to exactly
one `onsubmit` notification carrying the success result, emitted only
after all `N` `FieldValidationUpdate` messages (one per registered
key) have been processed; `ValidateThenSubmit` itself clears
`validation_errors`, sets `validating`, broadcasts `Validate` and
emits the "validation started" notification. -/
theorem validate_then_submit_round_trip {Key : Type} [DecidableEq Key]
    (keys : List Key) (s : FormState Key)
    (hnd : keys.Nodup) (hne : keys ≠ []) :
    processQueue keys s
        (FormMsg.ValidateThenSubmit ::
          keys.map (fun k => FormMsg.FieldValidationUpdate k [])) =
      ({ validation_errors := emptyEntries keys, validating := false },
        FormEffect.EmitSubmitValidateStart :: FormEffect.SendAllFieldsValidate ::
          (List.replicate keys.length (FormEffect.EmitValidateUpdate []) ++
            [FormEffect.SendSelf FormMsg.Submit,
              FormEffect.EmitSubmit SubmitResult.ok])) := by
  have h := process_updates keys ([] : List Key)
    (by simpa using hnd) hne
  simp only [List.nil_append] at h
  simp only [emptyEntries, List.map_nil] at h
  simp [processQueue, Form.update, selfMessages, h, emptyEntries]

/-- Witness for C2 at `keys = [0, 1]`, starting from a freshly created
form. -/
theorem validate_then_submit_round_trip_witness :
    ([0, 1] : List Nat).Nodup ∧
    processQueue [0, 1] (Form.createState Nat)
        (FormMsg.ValidateThenSubmit ::
          ([0, 1] : List Nat).map (fun k => FormMsg.FieldValidationUpdate k [])) =
      ({ validation_errors := emptyEntries [0, 1], validating := false },
        FormEffect.EmitSubmitValidateStart :: FormEffect.SendAllFieldsValidate ::
          (List.replicate ([0, 1] : List Nat).length
              (FormEffect.EmitValidateUpdate []) ++
            [FormEffect.SendSelf FormMsg.Submit,
              FormEffect.EmitSubmit SubmitResult.ok])) :=
  ⟨by decide,
    validate_then_submit_round_trip [0, 1] (Form.createState Nat)
      (by decide) (by decide)⟩

/-- Recognizes an `onsubmit` emission. -/
def isEmitSubmit {Key : Type} : FormEffect Key → Bool
  | .EmitSubmit _ => true
  | _ => false

/-- C2 counterexample (the `N = 0` boundary): on a form whose registry
has zero registered fields, `ValidateThenSubmit` clears the error map,
sets `validating` and broadcasts, but the run emits no `onsubmit`
notification at all — not exactly one — because `Submit` is only ever
reached from a `FieldValidationUpdate` and no field exists to send
one. -/
theorem round_trip_zero_fields_no_submit :
    processQueue ([] : List Nat) (Form.createState Nat)
        (FormMsg.ValidateThenSubmit ::
          ([] : List Nat).map (fun k => FormMsg.FieldValidationUpdate k [])) =
      ({ validation_errors := [], validating := true },
        [FormEffect.EmitSubmitValidateStart, FormEffect.SendAllFieldsValidate])
    ∧ ∀ e ∈ (processQueue ([] : List Nat) (Form.createState Nat)
          (FormMsg.ValidateThenSubmit ::
            ([] : List Nat).map (fun k => FormMsg.FieldValidationUpdate k []))).2,
        isEmitSubmit e = false := by
  have h : processQueue ([] : List Nat) (Form.createState Nat)
      (FormMsg.ValidateThenSubmit ::
        ([] : List Nat).map (fun k => FormMsg.FieldValidationUpdate k [])) =
      ({ validation_errors := [], validating := true },
        [FormEffect.EmitSubmitValidateStart, FormEffect.SendAllFieldsValidate]) := by
    simp [processQueue, Form.update, selfMessages, Form.createState]
  refine ⟨h, ?_⟩
  rw [h]
  decide

/-- Models `FieldMsg` (`link.rs`, lines 29-35): the two messages a
form can address to any registered field. -/
inductive FieldMsg where
  | Validate
  | ClearValidationErrors
deriving DecidableEq

/-- Models `UpdateSource` (`input_field.rs`): which DOM event produced
an `Update`. -/
inductive UpdateSource where
  | ChangeEvent
  | InputEvent
deriving DecidableEq

/-- Models `ValidateOn` (`input_field.rs`): which update events
trigger a validation. -/
inductive ValidateOn where
  | ChangeEvent
  | AnyEvent
  | None
deriving DecidableEq

/-- The properties of `InputField` consulted by `InputField::update`
(`input_field.rs`): the field's key, the validation trigger
configuration, and the externally supplied extra display errors.
(The purely view-level properties — label, placeholder, `update_on` —
and the validator itself, whose completion is delivered as a
`SetValidationErrors` message, do not enter the update function.) -/
structure InputFieldProps (Key Value : Type) where
  field_key : Key
  validate_on : ValidateOn
  extra_errors : ValidationErrors Key
deriving DecidableEq

/-- The state owned by an `InputField` component. -/
structure InputFieldState (Key Value : Type) where
  value : Value
  validation_errors : ValidationErrors Key
  display_validation_errors : ValidationErrors Key
deriving DecidableEq

/-- Models `InputFieldMsg<Key, Value>`. -/
inductive InputFieldMsg (Key Value : Type) where
  | Update (value : Value) (source : UpdateSource)
  | Validate
  | SetValidationErrors (errors : ValidationErrors Key)
  | ClearValidationErrors
deriving DecidableEq

/-- The side effects a field component's `update` can emit, in source
order. -/
inductive FieldEffect (Key Value : Type) where
  /-- the field's own "value changed" external callback
  (`props.onupdate.emit(value)` / `props.onchange.emit(value)`) -/
  | EmitOnUpdate (value : Value)
  /-- `form_link.send_form_message(msg)` -/
  | SendFormMsg (msg : FormMsg Key)
  /-- `link.send_future(async { .. SetValidationErrors(..) })`: spawn
  the asynchronous validator, whose completion later arrives as a
  `SetValidationErrors`/`ValidationErrors` message -/
  | SpawnValidate
deriving DecidableEq

/-- Models the `InputFieldMsg::Validate` arm (`input_field.rs`, lines
367-375): spawn the validation future, change nothing, render
nothing.  Shared with the `Update` arm, which invokes it through
`self.update(InputFieldMsg::Validate)`. -/
def InputField.validateStep {Key Value : Type}
    (s : InputFieldState Key Value) :
    InputFieldState Key Value × List (FieldEffect Key Value) × Bool :=
  (s, [.SpawnValidate], false)

/-- Models `InputField::update` (`input_field.rs`, lines 340-402). -/
def InputField.update {Key Value : Type} [DecidableEq Value]
    (props : InputFieldProps Key Value) (s : InputFieldState Key Value) :
    InputFieldMsg Key Value →
      InputFieldState Key Value × List (FieldEffect Key Value) × Bool
  | .Update value source =>
      if value ≠ s.value then
        let s1 := { s with value := value }
        let validateEffects : List (FieldEffect Key Value) :=
          match props.validate_on, source with
          | .ChangeEvent, .ChangeEvent => (InputField.validateStep s1).2.1
          | .ChangeEvent, .InputEvent => []
          | .AnyEvent, _ => (InputField.validateStep s1).2.1
          | .None, _ => []
        (s1,
          [.EmitOnUpdate value, .SendFormMsg (.FieldValueUpdate props.field_key)]
            ++ validateEffects,
          true)
      else (s, [], true)
  | .Validate => InputField.validateStep s
  | .SetValidationErrors errors =>
      ({ s with
          validation_errors := errors
          display_validation_errors := errors ++ props.extra_errors },
        [.SendFormMsg (.FieldValidationUpdate props.field_key errors)], true)
  | .ClearValidationErrors =>
      ({ s with
          validation_errors := []
          display_validation_errors := props.extra_errors },
        [.SendFormMsg (.FieldValidationUpdate props.field_key [])], true)

/-- Models `impl Into<InputFieldMsg<..>> for FieldMsg`
(`input_field.rs`, lines 122-129): total over both `FieldMsg`
variants. -/
def inputFieldMsgOfFieldMsg {Key Value : Type} :
    FieldMsg → InputFieldMsg Key Value
  | .Validate => .Validate
  | .ClearValidationErrors => .ClearValidationErrors

/-- Models `CheckboxState` (`checkbox_field.rs`). -/
inductive CheckboxState where
  | Checked
  | Unchecked
deriving DecidableEq

/-- Models `CheckboxState::toggle`. -/
def CheckboxState.toggle : CheckboxState → CheckboxState
  | .Checked => .Unchecked
  | .Unchecked => .Checked

/-- The properties of `CheckboxField` consulted by
`CheckboxField::update`. -/
structure CheckboxFieldProps (Key : Type) where
  field_key : Key
  validate_on_update : Bool
  extra_errors : ValidationErrors Key
deriving DecidableEq

/-- The state owned by a `CheckboxField` component. -/
structure CheckboxFieldState (Key : Type) where
  value : CheckboxState
  validation_errors : ValidationErrors Key
  display_validation_errors : ValidationErrors Key
deriving DecidableEq

/-- Models `CheckboxFieldMsg<Key>`.  Note: the source enum has *no*
`ClearValidationErrors` variant. -/
inductive CheckboxFieldMsg (Key : Type) where
  | Update
  | Validate
  | ValidationErrors (errors : ValidationErrors Key)
deriving DecidableEq

/-- Models the `impl Into<CheckboxFieldMsg<Key>> for FieldMsg` in
`checkbox_field.rs` (lines 59-65).  The source `match` covers only
`FieldMsg::Validate`; there is no arm for
`FieldMsg::ClearValidationErrors` (the `match` is non-exhaustive, and
`CheckboxFieldMsg` has no corresponding variant or handler), so the
conversion is modelled as partial, with `none` marking the missing
arm. -/
def checkboxFieldMsgOfFieldMsg {Key : Type} :
    FieldMsg → Option (CheckboxFieldMsg Key)
  | .Validate => some .Validate
  | .ClearValidationErrors => none

/-- Models `CheckboxField::update` (`checkbox_field.rs`, lines
168-206). -/
def CheckboxField.update {Key : Type} (props : CheckboxFieldProps Key)
    (s : CheckboxFieldState Key) :
    CheckboxFieldMsg Key →
      CheckboxFieldState Key × List (FieldEffect Key CheckboxState) × Bool
  | .Update =>
      let s1 := { s with value := s.value.toggle }
      let validateEffects : List (FieldEffect Key CheckboxState) :=
        if props.validate_on_update then [.SpawnValidate] else []
      (s1,
        [.EmitOnUpdate s1.value, .SendFormMsg (.FieldValueUpdate props.field_key)]
          ++ validateEffects,
        true)
  | .Validate => (s, [.SpawnValidate], false)
  | .ValidationErrors errors =>
      ({ s with
          validation_errors := errors
          display_validation_errors := errors ++ props.extra_errors },
        [.SendFormMsg (.FieldValidationUpdate props.field_key errors)], true)

/-- The properties of `SelectField` consulted by
`SelectField::update`.  (`validate_on_update` is declared on the
property struct but — unlike the checkbox — never consulted by the
`Update` arm, which validates unconditionally.) -/
structure SelectFieldProps (Key Value : Type) where
  field_key : Key
  validate_on_update : Bool
  extra_errors : ValidationErrors Key
deriving DecidableEq

/-- The state owned by a `SelectField` component; the current value is
an optional selected option. -/
structure SelectFieldState (Key Value : Type) where
  value : Option Value
  validation_errors : ValidationErrors Key
  display_validation_errors : ValidationErrors Key
deriving DecidableEq

/-- Models `SelectFieldMsg<Value, Key>`. -/
inductive SelectFieldMsg (Key Value : Type) where
  | Update (value : Value)
  | Validate
  | ValidationErrors (errors : ValidationErrors Key)
  | ClearValidationErrors
deriving DecidableEq

/-- Models `SelectField::update` (`select_field.rs`, lines 180-226).
The `Update` arm performs no value-equality comparison: it
unconditionally stores the new value, emits `onupdate`, sends
`FieldValueUpdate` and recursively validates
(`self.update(SelectFieldMsg::Validate)`), regardless of
`validate_on_update`. -/
def SelectField.update {Key Value : Type}
    (props : SelectFieldProps Key Value) (s : SelectFieldState Key Value) :
    SelectFieldMsg Key Value →
      SelectFieldState Key Value × List (FieldEffect Key Value) × Bool
  | .Update value =>
      ({ s with value := some value },
        [.EmitOnUpdate value, .SendFormMsg (.FieldValueUpdate props.field_key),
          .SpawnValidate],
        true)
  | .Validate => (s, [.SpawnValidate], false)
  | .ValidationErrors errors =>
      ({ s with
          validation_errors := errors
          display_validation_errors := errors ++ props.extra_errors },
        [.SendFormMsg (.FieldValidationUpdate props.field_key errors)], true)
  | .ClearValidationErrors =>
      ({ s with
          validation_errors := []
          display_validation_errors := props.extra_errors },
        [.SendFormMsg (.FieldValidationUpdate props.field_key [])], true)

/-- C5: processing `SetValidationErrors(errors)` (input field) and its
checkbox counterpart `ValidationErrors(errors)` stores `errors` as the
field's authoritative error set, sets `display_validation_errors` to
the union of `errors` with the field's `extra_errors` property, and
sends the form exactly one `FieldValidationUpdate` carrying the
field's key and exactly the authoritative `errors` — the extra errors
never reach the form, even when `extra_errors` is non-empty. -/
theorem set_validation_errors_spec {Key Value : Type} [DecidableEq Value]
    (props : InputFieldProps Key Value) (s : InputFieldState Key Value)
    (errors : ValidationErrors Key)
    (cprops : CheckboxFieldProps Key) (cs : CheckboxFieldState Key)
    (cerrors : ValidationErrors Key) :
    InputField.update props s (InputFieldMsg.SetValidationErrors errors) =
      ({ s with
          validation_errors := errors
          display_validation_errors := errors ++ props.extra_errors },
        [FieldEffect.SendFormMsg
          (FormMsg.FieldValidationUpdate props.field_key errors)],
        true)
    ∧ CheckboxField.update cprops cs (CheckboxFieldMsg.ValidationErrors cerrors) =
      ({ cs with
          validation_errors := cerrors
          display_validation_errors := cerrors ++ cprops.extra_errors },
        [FieldEffect.SendFormMsg
          (FormMsg.FieldValidationUpdate cprops.field_key cerrors)],
        true) :=
  ⟨rfl, rfl⟩

/-- The validation-trigger decision of the input field's `Update` arm
(the `match self.props.validate_on` in `input_field.rs`, lines
352-362): `ValidateOn::ChangeEvent` validates only on change-sourced
updates, `AnyEvent` always, `None` never. -/
def validateTriggered : ValidateOn → UpdateSource → Bool
  | .ChangeEvent, .ChangeEvent => true
  | .ChangeEvent, .InputEvent => false
  | .AnyEvent, _ => true
  | .None, _ => false

/-- C6 (amended: the equality guard belongs to the input field; the
select — and likewise multi-value — variant has none): the input
field's `Update` with a value equal to the stored one changes nothing
and emits nothing; with a differing value it stores the value and
emits the value-changed callback first, the `FieldValueUpdate` form
message second, then a validator spawn exactly as dictated by its
`ValidateOn` configuration.  The select field's `Update` stores,
emits, messages and validates unconditionally, even when the new
value equals the stored one. -/
theorem update_value_spec {Key Value : Type} [DecidableEq Value]
    (props : InputFieldProps Key Value) (s : InputFieldState Key Value)
    (value : Value) (source : UpdateSource)
    (sprops : SelectFieldProps Key Value) (ss : SelectFieldState Key Value)
    (svalue : Value) :
    InputField.update props s (InputFieldMsg.Update value source) =
      (if value = s.value then (s, [], true)
        else
          ({ s with value := value },
            [FieldEffect.EmitOnUpdate value,
              FieldEffect.SendFormMsg (FormMsg.FieldValueUpdate props.field_key)]
              ++ (if validateTriggered props.validate_on source
                    then [FieldEffect.SpawnValidate] else []),
            true))
    ∧ SelectField.update sprops ss (SelectFieldMsg.Update svalue) =
        ({ ss with value := some svalue },
          [FieldEffect.EmitOnUpdate svalue,
            FieldEffect.SendFormMsg (FormMsg.FieldValueUpdate sprops.field_key),
            FieldEffect.SpawnValidate],
          true) := by
  refine ⟨?_, rfl⟩
  by_cases h : value = s.value
  · simp [InputField.update, h]
  · cases hv : props.validate_on <;> cases source <;>
      simp [InputField.update, InputField.validateStep, validateTriggered, h, hv]

/-- C6 counterexample: a `SelectField` whose stored value is already
`Some(7)` processes `Update(7)` — a new value equal (by
value-equality) to the stored one — by emitting the full effect
sequence (value callback, `FieldValueUpdate` to the form, a validator
spawn) instead of changing nothing and emitting nothing. -/
theorem select_update_equal_value_still_emits :
    SelectField.update
        ({ field_key := 0
           validate_on_update := true
           extra_errors := [] } : SelectFieldProps Nat Nat)
        { value := some 7
          validation_errors := []
          display_validation_errors := [] }
        (SelectFieldMsg.Update 7) =
      ({ value := some 7
         validation_errors := []
         display_validation_errors := [] },
        [FieldEffect.EmitOnUpdate 7,
          FieldEffect.SendFormMsg (FormMsg.FieldValueUpdate 0),
          FieldEffect.SpawnValidate],
        true) := rfl

/-- C7 (code bug in `checkbox_field.rs`): the checkbox variant cannot
process `ClearValidationErrors` at all — its `FieldMsg` conversion
(lines 59-65) has no arm for `FieldMsg::ClearValidationErrors`
(`checkboxFieldMsgOfFieldMsg` returns `none`), and `CheckboxFieldMsg`
has no such variant — while the input field variant behaves exactly
as the claim states: it resets the authoritative error set to empty,
recomputes the display errors as the extra errors alone, sends the
form a `FieldValidationUpdate` carrying an empty error set, and doing
so twice equals doing it once. -/
theorem clear_validation_errors_spec {Key Value : Type} [DecidableEq Value]
    (props : InputFieldProps Key Value) (s : InputFieldState Key Value) :
    @checkboxFieldMsgOfFieldMsg Key FieldMsg.ClearValidationErrors = none
    ∧ InputField.update props s InputFieldMsg.ClearValidationErrors =
        ({ s with
            validation_errors := []
            display_validation_errors := props.extra_errors },
          [FieldEffect.SendFormMsg
            (FormMsg.FieldValidationUpdate props.field_key [])],
          true)
    ∧ InputField.update props
          (InputField.update props s InputFieldMsg.ClearValidationErrors).1
          InputFieldMsg.ClearValidationErrors
        = InputField.update props s InputFieldMsg.ClearValidationErrors :=
  ⟨rfl, rfl, rfl⟩

/-- The identity-plus-contents view of a `FormFieldLink<Key>` handle
as held in a field's properties: `id` models the `Rc` pointer
identity compared by `FormFieldLink`'s `PartialEq` (`Rc::ptr_eq` on
the two inner `Rc`s, which are always created and cloned together),
and `fields` models the key set of the shared `field_links` map,
consulted by `field_is_registered` and extended by
`register_field`. -/
structure FormFieldLinkModel (Key : Type) where
  id : Nat
  fields : List Key
deriving DecidableEq

/-- The field-component properties consulted by
`NeqAssignFieldProps::neq_assign_field` (`field_props.rs`): the link
to the form, the field's key, the extra display errors, and — as an
opaque `rest` component — the remaining control-specific properties,
compared structurally. -/
structure FieldPropsModel (Key Extra : Type) where
  form_link : FormFieldLinkModel Key
  field_key : Key
  extra_errors : ValidationErrors Key
  rest : Extra

/-- The derived `PartialEq` of a field's property struct: the
`form_link` participates through `Rc` pointer identity, every other
property structurally. -/
def FieldPropsModel.peq {Key Extra : Type} [DecidableEq Key] [DecidableEq Extra]
    (a b : FieldPropsModel Key Extra) : Bool :=
  decide (a.form_link.id = b.form_link.id ∧ a.field_key = b.field_key
    ∧ a.extra_errors = b.extra_errors ∧ a.rest = b.rest)

/-- Models `NeqAssignFieldProps::neq_assign_field` (`field_props.rs`,
lines 29-47): when the new properties differ, and their `form_link`
differs by identity from the old one, and the new registry does not
already contain this field's key, a fresh field link is registered
into the new registry; then the new properties are assigned.  Returns
the assigned properties — whose `form_link.fields` reflect the new
registry after any `register_field` call — together with whether a
registration happened and the `ShouldRender` result. -/
def neqAssignField {Key Extra : Type} [DecidableEq Key] [DecidableEq Extra]
    (old new : FieldPropsModel Key Extra) :
    FieldPropsModel Key Extra × Bool × Bool :=
  if old.peq new then (old, false, false)
  else
    if old.form_link.id ≠ new.form_link.id then
      if ¬ (new.field_key ∈ new.form_link.fields) then
        ({ new with form_link :=
            { new.form_link with fields := new.form_link.fields ++ [new.field_key] } },
          true, true)
      else (new, false, true)
    else (new, false, true)

/-- C9: a properties change registers a new field link exactly when
the new `form_link` differs by identity from the old one *and* the
new registry does not already contain the field's key; when it does
register, the key is appended to the new registry's key set, and in
every other case — key already present (no overwrite), or `form_link`
identity unchanged regardless of any other property change — the new
registry's key set is left untouched. -/
theorem neq_assign_field_registration {Key Extra : Type}
    [DecidableEq Key] [DecidableEq Extra]
    (old new : FieldPropsModel Key Extra) :
    (neqAssignField old new).2.1 =
      (decide (old.form_link.id ≠ new.form_link.id) &&
        !(decide (new.field_key ∈ new.form_link.fields)))
    ∧ (neqAssignField old new).1.form_link.fields =
        (if (neqAssignField old new).2.1 = true
          then new.form_link.fields ++ [new.field_key]
          else if old.peq new then old.form_link.fields
          else new.form_link.fields) := by
  by_cases hp : old.peq new
  · have hid : old.form_link.id = new.form_link.id := by
      have := of_decide_eq_true hp
      exact this.1
    simp [neqAssignField, hp, hid]
  · by_cases hid : old.form_link.id = new.form_link.id
    · simp [neqAssignField, hp, hid]
    · by_cases hmem : new.field_key ∈ new.form_link.fields
      · simp [neqAssignField, hp, hid, hmem]
      · simp [neqAssignField, hp, hid, hmem]

/-- Models `InputField::change` (`input_field.rs`, lines 404-419):
when the `extra_errors` property changed, recompute
`display_validation_errors` as the authoritative `validation_errors`
extended with the new extra errors; then run `neq_assign_field` on
the properties.  The function sends no message and spawns no
validator, which the empty trailing effect list records.  Returns
(new state, assigned props, registered?, `ShouldRender`, effects). -/
def InputField.change {Key Value Extra : Type}
    [DecidableEq Key] [DecidableEq Extra]
    (props newProps : FieldPropsModel Key Extra)
    (s : InputFieldState Key Value) :
    InputFieldState Key Value × FieldPropsModel Key Extra × Bool × Bool
      × List (FieldEffect Key Value) :=
  let s1 :=
    if props.extra_errors ≠ newProps.extra_errors then
      { s with display_validation_errors :=
          s.validation_errors ++ newProps.extra_errors }
    else s
  let r := neqAssignField props newProps
  (s1, r.1, r.2.1, r.2.2, [])

/-- Models `CheckboxField::change` (`checkbox_field.rs`, lines
208-221).  Note the source divergence from `InputField::change`: when
the `extra_errors` property changed it runs
`self.validation_errors.extend(props.extra_errors.clone())` — it
extends the *authoritative* `validation_errors` in place and leaves
`display_validation_errors` untouched. -/
def CheckboxField.change {Key Extra : Type}
    [DecidableEq Key] [DecidableEq Extra]
    (props newProps : FieldPropsModel Key Extra)
    (s : CheckboxFieldState Key) :
    CheckboxFieldState Key × FieldPropsModel Key Extra × Bool × Bool
      × List (FieldEffect Key CheckboxState) :=
  let s1 :=
    if props.extra_errors ≠ newProps.extra_errors then
      { s with validation_errors :=
          s.validation_errors ++ newProps.extra_errors }
    else s
  let r := neqAssignField props newProps
  (s1, r.1, r.2.1, r.2.2, [])

/-- C8 (code bug in `checkbox_field.rs`): on a properties change
altering only `extra_errors`, the input field behaves as the claim
states — the new extra errors are merged into
`display_validation_errors`, the authoritative `validation_errors`
are untouched, no registration happens, no validator runs and no
message is sent — but the checkbox field does the opposite: it
extends the authoritative `validation_errors` with the new extra
errors and leaves `display_validation_errors` unchanged (so the new
extra errors are never displayed, contradicting the claim and the
property's own documentation). -/
theorem extra_errors_change_spec {Key Value Extra : Type}
    [DecidableEq Key] [DecidableEq Extra]
    (props : FieldPropsModel Key Extra) (e2 : ValidationErrors Key)
    (s : InputFieldState Key Value) (cs : CheckboxFieldState Key) :
    (InputField.change props { props with extra_errors := e2 } s).1 =
        (if props.extra_errors = e2 then s
          else { s with display_validation_errors := s.validation_errors ++ e2 })
    ∧ (InputField.change props { props with extra_errors := e2 } s).1.validation_errors
        = s.validation_errors
    ∧ (InputField.change props { props with extra_errors := e2 } s).2.2.1 = false
    ∧ (InputField.change props { props with extra_errors := e2 } s).2.2.2.2 = []
    ∧ (CheckboxField.change props { props with extra_errors := e2 } cs).1 =
        (if props.extra_errors = e2 then cs
          else { cs with validation_errors := cs.validation_errors ++ e2 })
    ∧ (CheckboxField.change props { props with extra_errors := e2 } cs).1.display_validation_errors
        = cs.display_validation_errors
    ∧ (CheckboxField.change props { props with extra_errors := e2 } cs).2.2.1 = false
    ∧ (CheckboxField.change props { props with extra_errors := e2 } cs).2.2.2.2 = [] := by
  have hreg : ∀ e : ValidationErrors Key,
      (neqAssignField props { props with extra_errors := e }).2.1 = false := by
    intro e
    by_cases hp : FieldPropsModel.peq props { props with extra_errors := e }
    · simp [neqAssignField, hp]
    · simp [neqAssignField, hp]
  refine ⟨?_, ?_, ?_, ?_, ?_, ?_, ?_, ?_⟩
  · by_cases h : props.extra_errors = e2 <;> simp [InputField.change, h]
  · by_cases h : props.extra_errors = e2 <;> simp [InputField.change, h]
  · simp [InputField.change, hreg]
  · simp [InputField.change]
  · by_cases h : props.extra_errors = e2 <;> simp [CheckboxField.change, h]
  · by_cases h : props.extra_errors = e2 <;> simp [CheckboxField.change, h]
  · simp [CheckboxField.change, hreg]
  · simp [CheckboxField.change]

/-- The contents view of a `FormFieldLink<Key>` registry (`link.rs`):
the optional form handle (`Rc<RefCell<Option<ComponentLink<Form>>>>`)
and the `field_links` map from keys to field handles
(`Rc<dyn FieldLink<Key>>`), each handle identified by an opaque `Nat`
tag.  `FormFieldLink::new` starts with no form handle and an empty
map. -/
structure FormFieldLink (Key : Type) where
  form_link : Option Nat
  field_links : List (Key × Nat)
deriving DecidableEq

/-- Models `FormFieldLink::field_is_registered`. -/
def FormFieldLink.field_is_registered {Key : Type} [DecidableEq Key]
    (reg : FormFieldLink Key) (key : Key) : Bool :=
  containsKey reg.field_links key

/-- Models `FormFieldLink::form_is_registered`. -/
def FormFieldLink.form_is_registered {Key : Type}
    (reg : FormFieldLink Key) : Bool :=
  reg.form_link.isSome

/-- Models `FormFieldLink::send_field_message` (`link.rs`, lines
89-100): look the key up in `field_links` and deliver `msg` to the
registered handle; the `unwrap_or_else(|| panic!(..))` on a missing
key is modelled as the `none` outcome (a fatal,
programming-error-class failure, not a silent no-op). -/
def FormFieldLink.send_field_message {Key : Type} [DecidableEq Key]
    (reg : FormFieldLink Key) (key : Key) (msg : FieldMsg) :
    Option (Nat × FieldMsg) :=
  match lookupEntry reg.field_links key with
  | some handle => some (handle, msg)
  | none => none

/-- Models `FormFieldLink::send_form_message` (`link.rs`, lines
108-114): deliver `msg` to the registered form handle; the
`expect(..)` on an absent handle is modelled as the `none` outcome. -/
def FormFieldLink.send_form_message {Key : Type}
    (reg : FormFieldLink Key) (msg : FormMsg Key) :
    Option (Nat × FormMsg Key) :=
  match reg.form_link with
  | some handle => some (handle, msg)
  | none => none

theorem lookupEntry_eq_none_iff_not_contains {Key V : Type} [DecidableEq Key]
    (m : List (Key × V)) (k : Key) :
    lookupEntry m k = none ↔ containsKey m k = false := by
  induction m with
  | nil => simp [lookupEntry, containsKey]
  | cons p rest ih =>
      by_cases h : p.1 = k <;> simp [lookupEntry, containsKey, h, ih]

/-- C10: `send_field_message(key, msg)` on a registry whose field map
does not contain `key` fails fatally (the panic outcome), never a
silent no-op; when `key` is registered the message is delivered to
the handle registered under `key`.  Likewise `send_form_message`
fails fatally when no form handle is registered and otherwise
delivers to the registered form handle. -/
theorem send_message_unregistered_is_fatal {Key : Type} [DecidableEq Key]
    (reg : FormFieldLink Key) (key : Key) (msg : FieldMsg)
    (fmsg : FormMsg Key) :
    (FormFieldLink.field_is_registered reg key = false →
      FormFieldLink.send_field_message reg key msg = none)
    ∧ (∀ handle, lookupEntry reg.field_links key = some handle →
        FormFieldLink.send_field_message reg key msg = some (handle, msg))
    ∧ (FormFieldLink.form_is_registered reg = false →
        FormFieldLink.send_form_message reg fmsg = none)
    ∧ (∀ handle, reg.form_link = some handle →
        FormFieldLink.send_form_message reg fmsg = some (handle, fmsg)) := by
  refine ⟨?_, ?_, ?_, ?_⟩
  · intro h
    have hl : lookupEntry reg.field_links key = none :=
      (lookupEntry_eq_none_iff_not_contains reg.field_links key).mpr h
    simp [FormFieldLink.send_field_message, hl]
  · intro handle h
    simp [FormFieldLink.send_field_message, h]
  · intro h
    rw [FormFieldLink.form_is_registered] at h
    rw [Bool.eq_false_iff, Ne, Option.isSome_iff_exists] at h
    cases ho : reg.form_link with
    | none => simp [FormFieldLink.send_form_message, ho]
    | some handle => exact absurd ⟨handle, ho⟩ h
  · intro handle h
    simp [FormFieldLink.send_form_message, h]

/-- Witness for C10 on the registry `{form: some 9, fields: [(0, 7)]}`:
the unregistered key `1` is fatal, the registered key `0` delivers to
handle `7`, and the registered form handle `9` receives the form
message. -/
theorem send_message_unregistered_is_fatal_witness :
    FormFieldLink.field_is_registered
        ({ form_link := some 9, field_links := [(0, 7)] } : FormFieldLink Nat) 1
      = false
    ∧ FormFieldLink.send_field_message
        ({ form_link := some 9, field_links := [(0, 7)] } : FormFieldLink Nat) 1
        FieldMsg.Validate = none
    ∧ FormFieldLink.send_field_message
        ({ form_link := some 9, field_links := [(0, 7)] } : FormFieldLink Nat) 0
        FieldMsg.Validate = some (7, FieldMsg.Validate)
    ∧ FormFieldLink.send_form_message
        ({ form_link := some 9, field_links := [(0, 7)] } : FormFieldLink Nat)
        (FormMsg.ValidateThenSubmit) = some (9, FormMsg.ValidateThenSubmit) := by
  have h := send_message_unregistered_is_fatal
    ({ form_link := some 9, field_links := [(0, 7)] } : FormFieldLink Nat) 1
    FieldMsg.Validate (FormMsg.ValidateThenSubmit)
  have h0 := send_message_unregistered_is_fatal
    ({ form_link := some 9, field_links := [(0, 7)] } : FormFieldLink Nat) 0
    FieldMsg.Validate (FormMsg.ValidateThenSubmit)
  exact ⟨by decide, h.1 (by decide), h0.2.1 7 (by decide),
    h0.2.2.2 9 (by decide)⟩
